import Mathlib

/-!
# Verification of the hydrodataset regional CAMELS adapters

Shallow embedding of the time-series and attribute readers of the
`hydrodataset` repository (regional adapters `camels_aus.py`, `camels_ch.py`,
`camels_fr.py`, `camels_dk.py`, `camels_br.py`, `camels_ind.py`) together with
proofs about them.

Modelling conventions:
* a floating-point cell is `Option ℚ`: `none` is NaN, `some q` a finite value
  (the claims under study involve only exact decimal arithmetic);
* dates are integer day numbers; `hydro_time.t_range_days [s, e)` (external
  `hydroutils` library) is the dense daily calendar `s, s+1, …, e-1`;
* a pandas `DataFrame` of one flow/forcing file is a record of its parsed date
  column and its named value columns; column selection is association-list
  lookup (pandas raises `KeyError` for a missing column, embedded as `none`);
* a numpy 3-d array of fixed shape is a function of its three indices
  (`ATensor`), materialised to nested lists on return;
* raising an exception is returning `none` at the `Option` level.
-/

/-- A floating-point cell: `none` models NaN. -/
abbrev Cell := Option ℚ

/-- Embeds `hydro_time.t_range_days` from the external `hydroutils` library:
the dense daily calendar of the half-open range `[s, e)`. -/
def t_range_days (s e : Int) : List Int :=
  (List.range (e - s).toNat).map (fun n : Nat => s + (n : Int))

/-- Elementwise sentinel masking `x[x < 0] = np.nan`: a negative value becomes
NaN, NaN stays NaN (in numpy `nan < 0` is false). -/
def maskNeg (x : Cell) : Cell :=
  x.bind (fun v => if v < 0 then none else some v)

/-- This is `List.mapM` specialised to `Option`, written as structural recursion:
fails iff any element fails (a raised exception aborts the whole loop). -/
def traverseOpt (f : α → Option β) : List α → Option (List β)
  | [] => some []
  | a :: as =>
    match f a, traverseOpt f as with
    | some b, some bs => some (b :: bs)
    | _, _ => none

/-- A parsed per-variable flow/forcing file of CAMELS-AUS: one shared file per
variable, a parsed `year/month/day` date vector and one value column per
station (pandas `DataFrame` with station ids as column names). -/
structure FlowTable where
  dates : List Int
  cols : List (String × List Cell)

/-- A numpy array of shape `[basin, time, variable]` as a function of its
indices. -/
abbrev ATensor := Nat → Nat → Nat → Cell

/-- The numpy assignment `y[:, ind2, k] = chosen_data.T` for one variable,
where `[c, ind1, ind2] = np.intersect1d(date, t_range_list, return_indices=True)`
and `chosen_data = values[ind1, :]` with `chosen_data[chosen_data < 0] = nan`:
calendar position `j` of slice `k` receives the masked source value of the
first source row whose date equals `cal[j]`; positions whose date is absent
from the source keep their previous content. `gcols` is the list of the
selected stations' columns, in the caller's station order. -/
def scatterWrite (y : ATensor) (k : Nat) (cal : List Int) (dates : List Int)
    (gcols : List (List Cell)) : ATensor :=
  fun i j p =>
    if p = k then
      match cal.get? j with
      | some d =>
        match dates.indexOf? d with
        | some m => maskNeg (((gcols.getD i []).getD m none))
        | none => y i j p
      | none => y i j p
    else y i j p

/-- The divisor in `y = y / 84.6` of `CamelsAus.read_target_cols`. -/
def mldDivisor : ℚ := 846 / 10

/-- The numpy statement `y = y / 84.6`: the WHOLE tensor is divided
elementwise (NaN stays NaN). -/
def divTensor (y : ATensor) : ATensor :=
  fun i j p => (y i j p).map (fun q => q / mldDivisor)

namespace CamelsAus

/-- The loop body of `CamelsAus.read_target_cols` over the remaining
`target_cols`, with `k` the index of the next slice to write: read the
variable's shared file (missing file: `FileNotFoundError`), select the
requested stations' columns (`flow_data[gage_id_lst]`, missing station:
`KeyError`), scatter the masked values into slice `k`, then — if the variable
is `"streamflow_MLd"` — divide the whole tensor by 84.6. -/
def ausLoop (F : List (String × FlowTable)) (G : List String) (cal : List Int) :
    List String → Nat → ATensor → Option ATensor
  | [], _, y => some y
  | v :: rest, k, y =>
    match List.lookup v F with
    | none => none
    | some tbl =>
      match traverseOpt (fun g => List.lookup g tbl.cols) G with
      | none => none
      | some gcols =>
        let y1 := scatterWrite y k cal tbl.dates gcols
        let y2 := if v = "streamflow_MLd" then divTensor y1 else y1
        ausLoop F G cal rest (k + 1) y2

/-- The tensor of `CamelsAus.read_target_cols` as it stands just before the
final call `self.unit_convert_streamflow_m3tofoot3(y)`: allocated as
`np.full([len(gage_id_lst), nt, nf], np.nan)` and filled by the loop. -/
def ausPreNorm (F : List (String × FlowTable)) (G : List String) (s e : Int)
    (tcols : List String) : Option ATensor :=
  ausLoop F G (t_range_days s e) tcols 0 (fun _ _ _ => none)

end CamelsAus

/-- Modelled from the spec: `unit_convert_streamflow_m3tofoot3` lives in the
shared base class `hydrodataset/camels.py`, which is not under `src/`; per
spec §4.5 the unit normaliser is a pure stateless elementwise scaling to the
canonical unit (ft³/s), NaN propagating. The exact constant (ft³ per m³) is
irrelevant to every claim below. -/
def ft3PerM3 : ℚ := 35314666721489 / 10 ^ 12

/-- Modelled from the spec: elementwise m³/s → ft³/s conversion of the whole
tensor (spec §4.5: pure numeric scaling, NaN propagates). -/
def m3ToFt3Cell (x : Cell) : Cell := x.map (fun q => q * ft3PerM3)

/-- Modelled from the spec: `unit_convert_streamflow_Ltofoot3` of
`hydrodataset/camels.py` (not under `src/`): elementwise L/s → ft³/s
conversion, a pure scaling by one thousandth of the m³/s factor. -/
def lToFt3Cell (x : Cell) : Cell := x.map (fun q => q * (ft3PerM3 / 1000))

/-- Materialise a fixed-shape numpy array into nested lists
`[basin, time, variable]`. -/
def materialize (nb nt nv : Nat) (y : ATensor) : List (List (List Cell)) :=
  (List.range nb).map (fun i =>
    (List.range nt).map (fun j =>
      (List.range nv).map (fun p => y i j p)))

/-- Result of a regional `read_target_cols` call: `np.array([])` (returned
verbatim when `target_cols is None`) or a 3-axis tensor. -/
inductive ReadResult where
  | empty : ReadResult
  | tensor : List (List (List Cell)) → ReadResult
deriving DecidableEq

namespace CamelsAus

/-- Embeds `CamelsAus.read_target_cols`: `None` target columns return `np.array([])`;
otherwise the pre-allocated NaN tensor is filled per variable and finally
converted m³/s → ft³/s. An exception anywhere is `none`. -/
def read_target_cols (F : List (String × FlowTable)) (G : List String)
    (s e : Int) (tcols : Option (List String)) : Option ReadResult :=
  match tcols with
  | none => some ReadResult.empty
  | some cols =>
    (ausPreNorm F G s e cols).map (fun y =>
      ReadResult.tensor
        (materialize G.length (t_range_days s e).length cols.length
          (fun i j p => m3ToFt3Cell (y i j p))))

end CamelsAus

/-- Modelled from the spec: `time_intersect_dynamic_data` lives in the shared
base module `hydrodataset/camels.py`, which is not under `src/`. Per spec
§4.3 step 3 it scatters the parsed series onto the dense calendar by date
intersection: a calendar day found in the parsed date vector receives the
value of that (first) source row, a day absent from the source stays NaN. -/
def time_intersect_dynamic_data (obs : List Cell) (dates : List Int)
    (s e : Int) : List Cell :=
  (t_range_days s e).map (fun d =>
    match dates.indexOf? d with
    | some m => obs.getD m none
    | none => none)

/-- The shape of every regional per-basin `read_target_cols` loop
(`camels_ch.py`, `camels_fr.py`, `camels_dk.py`, `camels_br.py`):
`None` target columns return `np.array([])`; otherwise
`for j in range(len(target_cols)): for k in range(len(gage_id_lst)):
y[k, :, j] = reader(gage_id_lst[k], t_range, target_cols[j])` fills the
pre-allocated NaN tensor (the writes are disjoint across `(j, k)`, so the
nested loops are embedded as nested traversals in the same order), and the
region's unit conversion is applied to the whole tensor at the end. -/
def perBasinRead (reader : String → String → Option (List Cell))
    (convert : Cell → Cell) (G : List String) (s e : Int)
    (tcols : Option (List String)) : Option ReadResult :=
  match tcols with
  | none => some ReadResult.empty
  | some cols =>
    (traverseOpt (fun v => traverseOpt (fun g => reader g v) G) cols).map
      (fun slices =>
        ReadResult.tensor
          (materialize G.length (t_range_days s e).length cols.length
            (fun i j p =>
              convert (((slices.getD p []).getD i []).getD j none))))

namespace CamelsCh

/-- Embeds `CamelsCh.read_ch_gage_flow_forcing`: read the station's single file
(dates plus all variable columns), select the requested column, mask
negatives to NaN when the column is one of the configured `target_cols`
(`camelsch_arg`: `["discharge_vol(m3/s)", "discharge_spec(mm/d)"]`), and
align onto the requested calendar. `files` maps a station id to its parsed
file; a missing file or column raises (`none`). -/
def read_ch_gage_flow_forcing (files : List (String × FlowTable))
    (cfg_target_cols : List String) (gage_id : String) (s e : Int)
    (var_type : String) : Option (List Cell) :=
  match List.lookup gage_id files with
  | none => none
  | some tbl =>
    match List.lookup var_type tbl.cols with
    | none => none
    | some obs =>
      let obs := if var_type ∈ cfg_target_cols then obs.map maskNeg else obs
      some (time_intersect_dynamic_data obs tbl.dates s e)

/-- Embeds `CamelsCh.read_target_cols`: the per-basin loop over
`read_ch_gage_flow_forcing`, converted m³/s → ft³/s at the end. -/
def read_target_cols (files : List (String × FlowTable))
    (cfg_target_cols : List String) (G : List String) (s e : Int)
    (tcols : Option (List String)) : Option ReadResult :=
  perBasinRead (fun g v => read_ch_gage_flow_forcing files cfg_target_cols g s e v)
    m3ToFt3Cell G s e tcols

end CamelsCh

namespace CamelsFr

/-- Embeds `CamelsFr.read_fr_gage_flow_forcing`: read the station's single file and
align the requested column onto the calendar. The sentinel masking of target
columns is present in the source only as commented-out code
(`# if var_type in self.target_cols:  # todo:` / `# obs[obs < 0] = np.nan`),
so no masking is performed for any column. -/
def read_fr_gage_flow_forcing (files : List (String × FlowTable))
    (gage_id : String) (s e : Int) (var_type : String) : Option (List Cell) :=
  match List.lookup gage_id files with
  | none => none
  | some tbl =>
    match List.lookup var_type tbl.cols with
    | none => none
    | some obs => some (time_intersect_dynamic_data obs tbl.dates s e)

/-- Embeds `CamelsFr.read_target_cols`: the per-basin loop over
`read_fr_gage_flow_forcing`, converted L/s → ft³/s at the end. -/
def read_target_cols (files : List (String × FlowTable)) (G : List String)
    (s e : Int) (tcols : Option (List String)) : Option ReadResult :=
  perBasinRead (fun g v => read_fr_gage_flow_forcing files g s e v)
    lToFt3Cell G s e tcols

end CamelsFr

namespace CamelsDk

/-- Embeds `CamelsDk.read_dk_gage_flow_forcing`: probe the observation-based file
first and fall back to the simulation-based file (`if os.path.exists(gage_file1)
… elif os.path.exists(gage_file2)`; neither existing leaves `gage_file`
unbound, an exception), mask negatives for configured target columns
(`camelsdk_arg`: `["Qobs", "Qdkm"]`), and align onto the calendar. -/
def read_dk_gage_flow_forcing (files_obs files_sim : List (String × FlowTable))
    (cfg_target_cols : List String) (gage_id : String) (s e : Int)
    (var_type : String) : Option (List Cell) :=
  match (List.lookup gage_id files_obs).orElse (fun _ => List.lookup gage_id files_sim) with
  | none => none
  | some tbl =>
    match List.lookup var_type tbl.cols with
    | none => none
    | some obs =>
      let obs := if var_type ∈ cfg_target_cols then obs.map maskNeg else obs
      some (time_intersect_dynamic_data obs tbl.dates s e)

/-- Embeds `CamelsDk.read_target_cols`: the per-basin loop over
`read_dk_gage_flow_forcing`, converted m³/s → ft³/s at the end. -/
def read_target_cols (files_obs files_sim : List (String × FlowTable))
    (cfg_target_cols : List String) (G : List String) (s e : Int)
    (tcols : Option (List String)) : Option ReadResult :=
  perBasinRead
    (fun g v => read_dk_gage_flow_forcing files_obs files_sim cfg_target_cols g s e v)
    m3ToFt3Cell G s e tcols

end CamelsDk

namespace CamelsBr

/-- Embeds `CamelsBr.read_br_gage_flow`: one file per (station, flow type) holding
the parsed dates and the value column (`data_temp.iloc[:, 3]`); negatives are
always masked to NaN (`obs[obs < 0] = np.nan`), then the series is aligned
onto the calendar. `files` maps `(flow_type, gage_id)` keys to parsed files,
`obs3` being the fourth column. -/
def read_br_gage_flow (files : List ((String × String) × (List Int × List Cell)))
    (gage_id : String) (s e : Int) (flow_type : String) : Option (List Cell) :=
  match List.lookup (flow_type, gage_id) files with
  | none => none
  | some tbl =>
    some (time_intersect_dynamic_data (tbl.2.map maskNeg) tbl.1 s e)

end CamelsBr

/-- One column of a parsed attribute table: pandas classifies it at runtime as
string-typed (`is_string_dtype`) or numeric (`is_numeric_dtype`); a missing
cell is `none` (NaN) in either case. -/
inductive AttrCol where
  | strCol : List (Option String) → AttrCol
  | numCol : List Cell → AttrCol
deriving DecidableEq

/-- Number of rows of an attribute column. -/
def AttrCol.len : AttrCol → Nat
  | .strCol vs => vs.length
  | .numCol vs => vs.length

/-- A parsed attribute table: the identifier column (`station_id`) and the
remaining named columns in file order. -/
structure AttrTable where
  ids : List String
  cols : List (String × AttrCol)

/-- Embeds the `pd.factorize(column, sort=True)` uniques: the distinct non-missing
values in ascending lexical order. -/
def sortedLevels (vals : List (Option String)) : List String :=
  ((vals.filterMap id).dedup).mergeSort (fun a b => decide (a ≤ b))

/-- Embeds the `pd.factorize(column, sort=True)` codes, as stored into the float output
matrix: the index of the cell's value in the sorted level list, `-1` for a
missing (NaN) cell. -/
def factorizeCodes (vals : List (Option String)) : List ℚ :=
  vals.map (fun v =>
    match v with
    | none => (-1 : ℚ)
    | some s => ((sortedLevels vals).indexOf s : ℚ))

/-- The source row that numpy's assignment `out[:, k] = value` writes into
output row `r`: a value of length 1 broadcasts its single entry into every
output row; any other length is written positionally. -/
def broadcastIdx (len r : Nat) : Nat := if len = 1 then 0 else r

namespace CamelsAus

/-- Embeds `CamelsAus.read_attr_all`: load the master attribute table, take every
column after the identifier column, factorize string-typed columns over ALL
rows of the file and copy numeric columns verbatim, writing each whole column
into the output matrix (`out[:, k] = value`). The requested `gages_ids` enter
only through `n_gage = len(gages_ids)`: numpy's assignment succeeds when the
column's length equals `n_gage` or equals 1 (a single row broadcasts into
every output row) and raises (`none`) otherwise, and on success row `r` of
the output is the file's row `broadcastIdx` selects — positional, with no id
lookup and no `UnknownBasin` check. Returns `(out, var_lst, f_dict)` (the
source's third component is the constant `None`). -/
def read_attr_all (tbl : AttrTable) (gages_ids : List String) :
    Option (List (List Cell) × List String × List (String × List String)) :=
  if tbl.cols.all (fun c => c.2.len = gages_ids.length ∨ c.2.len = 1) then
    some
      ((List.range gages_ids.length).map (fun r =>
          tbl.cols.map (fun c =>
            match c.2 with
            | .strCol vals =>
              some ((factorizeCodes vals).getD (broadcastIdx vals.length r) (-1))
            | .numCol vals => vals.getD (broadcastIdx vals.length r) none)),
        tbl.cols.map (fun c => c.1),
        tbl.cols.filterMap (fun c =>
          match c.2 with
          | .strCol vals => some (c.1, sortedLevels vals)
          | .numCol _ => none))
  else none

end CamelsAus

/-- The attribute row extraction the spec's words demand (spec §4.4): look the
requested basin id up in the table's identifier column and read that row's
cells (string columns factorized, numeric verbatim); `none` is the
`UnknownBasin` failure for an id absent from the table. Stated from the
spec, for comparison with `CamelsAus.read_attr_all`. -/
def specAttrRow (tbl : AttrTable) (gid : String) : Option (List Cell) :=
  (tbl.ids.indexOf? gid).map (fun r =>
    tbl.cols.map (fun c =>
      match c.2 with
      | .strCol vals => some ((factorizeCodes vals).getD r (-1))
      | .numCol vals => vals.getD r none))

/-! ## Helper notions used by the theorems -/

/-- Access entry `[i, j, p]` of a materialised `[basin, time, variable]`
tensor. -/
def cellAt (t : List (List (List Cell))) (i j p : Nat) : Cell :=
  ((t.getD i []).getD j []).getD p none

/-- Division by `84.6` applied `n` times (the cumulative effect of the
`y = y / 84.6` statements executed by the `CamelsAus.read_target_cols`
loop). -/
def divPowCell (n : Nat) (x : Cell) : Cell :=
  x.map (fun q => q / mldDivisor ^ n)

/-- How many of the given target columns are `"streamflow_MLd"`, i.e. how
often the loop executes `y = y / 84.6`. -/
def mldCount (cols : List String) : Nat :=
  (cols.filter (fun v => v == "streamflow_MLd")).length

/-- A materialised tensor has exactly the shape `[nb, nt, nv]`. -/
def shape3 (t : List (List (List Cell))) (nb nt nv : Nat) : Prop :=
  t.length = nb ∧ ∀ rows ∈ t, rows.length = nt ∧ ∀ vars ∈ rows, vars.length = nv

/-- The value the `np.intersect1d`-based scatter writes into basin `i`'s
entry at calendar position `j`: the masked source value of the first source
row whose date equals `cal[j]`, or `fallback` (the entry's previous content)
when `cal[j]` is absent from the source dates. -/
def scatterVal (dates : List Int) (gcols : List (List Cell)) (cal : List Int)
    (i j : Nat) (fallback : Cell) : Cell :=
  match cal.get? j with
  | some d =>
    match dates.indexOf? d with
    | some m => maskNeg ((gcols.getD i []).getD m none)
    | none => fallback
  | none => fallback

/-- Whether a `read_target_cols` result is a 3-axis tensor (as opposed to the
empty array or an error). -/
def isTensorResult : Option ReadResult → Bool
  | some (ReadResult.tensor _) => true
  | _ => false

/-! ## Concrete inputs used by counterexamples and witnesses -/

/-- A flow directory holding only `streamflow_MLd.csv`: source days 0 and 1,
one station `"g"` whose value on day 0 is `1.0` ML/day and missing on day 1. -/
def mldOneFiles : List (String × FlowTable) :=
  [("streamflow_MLd", ⟨[0, 1], [("g", [some 1, none])]⟩)]

/-- A flow directory holding `streamflow_mmd.csv` (station `"g"`: `84.6` mm/day
on day 0) and `streamflow_MLd.csv` (station `"g"`: `2.0` ML/day on day 0). -/
def twoTargetFiles : List (String × FlowTable) :=
  [("streamflow_mmd", ⟨[0], [("g", [some (846 / 10)])]⟩),
   ("streamflow_MLd", ⟨[0], [("g", [some 2])]⟩)]

/-- A CAMELS-FR station file for `"g"`: on day 0 the target column `tsd_q_l`
holds the negative (sentinel) value `-5`. -/
def frNegFiles : List (String × FlowTable) :=
  [("g", ⟨[0], [("tsd_q_l", [some (-5)])]⟩)]

/-- A CAMELS-CH station file for `"g"`: on day 0 both the target column
`discharge_vol(m3/s)` and the forcing column `precipitation(mm/d)` hold the
negative value `-5`. -/
def chNegFiles : List (String × FlowTable) :=
  [("g", ⟨[0], [("discharge_vol(m3/s)", [some (-5)]),
                ("precipitation(mm/d)", [some (-5)])]⟩)]

/-- The configured CAMELS-CH target columns (`camelsch_arg["target_cols"]`). -/
def chTargetCols : List String := ["discharge_vol(m3/s)", "discharge_spec(mm/d)"]

/-- A CAMELS-DK observation-based station file for `"g"`: `Qobs = 3` on
day 0. -/
def dkObsFiles : List (String × FlowTable) :=
  [("g", ⟨[0], [("Qobs", [some 3])]⟩)]

/-- An attribute table whose native row order (`b2` then `b1`) differs from
the caller's requested order: `area(b2) = 10`, `area(b1) = 20`. -/
def attrTblReversed : AttrTable :=
  ⟨["b2", "b1"], [("area", AttrCol.numCol [some 10, some 20])]⟩

/-- An attribute table with a single data row (`area(b1) = 7`): numpy
broadcasts its columns into any number of requested output rows. -/
def attrTblOneRow : AttrTable :=
  ⟨["b1"], [("area", AttrCol.numCol [some 7])]⟩

/-- An attribute table with a string column containing a missing (NaN) cell
in row 1. -/
def attrTblMissing : AttrTable :=
  ⟨["b1", "b2", "b3"], [("geo", AttrCol.strCol [some "B", none, some "A"])]⟩

/-- The spec scenario attribute table: basins `b1..b4`, one string column with
values `["A", "B", "A", "C"]`. -/
def attrTblABAC : AttrTable :=
  ⟨["b1", "b2", "b3", "b4"],
   [("cls", AttrCol.strCol [some "A", some "B", some "A", some "C"])]⟩

/-- A shared flow file for variable `"flow_var"`: stations `g1` (value 3 on
day 0) and `g2` (value 4 on day 0). -/
def twoBasinFiles : List (String × FlowTable) :=
  [("flow_var", ⟨[0], [("g1", [some 3]), ("g2", [some 4])]⟩)]

/-- A shared flow file for variable `"flow_var"`: one station `"g"` with value
`7` on day 0 (and nothing for day 1). -/
def oneDayFiles : List (String × FlowTable) :=
  [("flow_var", ⟨[0], [("g", [some 7])]⟩)]

/-! ## Basic lemmas -/

lemma t_range_days_length (s e : Int) : (t_range_days s e).length = (e - s).toNat := by
  rw [t_range_days, List.length_map, List.length_range]

lemma divPowCell_zero (x : Cell) : divPowCell 0 x = x := by
  cases x <;> simp [divPowCell]

lemma divPowCell_divPowCell (a b : Nat) (x : Cell) :
    divPowCell a (divPowCell b x) = divPowCell (a + b) x := by
  cases x with
  | none => simp [divPowCell]
  | some q =>
    simp only [divPowCell, Option.map_some', Option.some.injEq]
    rw [div_div, ← pow_add, Nat.add_comm b a]

lemma divPowCell_none (n : Nat) : divPowCell n none = none := rfl

lemma divTensor_apply (y : ATensor) (i j p : Nat) :
    divTensor y i j p = divPowCell 1 (y i j p) := by
  cases h : y i j p <;> simp [divTensor, divPowCell, h]

lemma mldCount_nil : mldCount [] = 0 := rfl

lemma mldCount_cons (v : String) (rest : List String) :
    mldCount (v :: rest) =
      (if v = "streamflow_MLd" then 1 else 0) + mldCount rest := by
  by_cases hv : v = "streamflow_MLd" <;>
    simp [mldCount, List.filter_cons, hv, Nat.add_comm]

lemma scatterWrite_ne (y : ATensor) (k : Nat) (cal dates : List Int)
    (gcols : List (List Cell)) (i j p : Nat) (hp : p ≠ k) :
    scatterWrite y k cal dates gcols i j p = y i j p := by
  simp [scatterWrite, hp]

lemma traverseOpt_length {f : α → Option β} :
    ∀ {l : List α} {L : List β}, traverseOpt f l = some L → L.length = l.length := by
  intro l
  induction l with
  | nil => intro L h; simp [traverseOpt] at h; simp [← h]
  | cons a as ih =>
    intro L h
    simp only [traverseOpt] at h
    cases hfa : f a with
    | none => rw [hfa] at h; simp at h
    | some b =>
      rw [hfa] at h
      cases hrest : traverseOpt f as with
      | none => rw [hrest] at h; simp at h
      | some bs =>
        rw [hrest] at h
        simp only [Option.some.injEq] at h
        subst h
        simp [ih hrest]

lemma traverseOpt_getD {f : α → Option β} (dA : α) (dB : β) :
    ∀ {l : List α} {L : List β}, traverseOpt f l = some L →
      ∀ i, i < l.length → f (l.getD i dA) = some (L.getD i dB) := by
  intro l
  induction l with
  | nil => intro L _ i hi; simp at hi
  | cons a as ih =>
    intro L h i hi
    simp only [traverseOpt] at h
    cases hfa : f a with
    | none => rw [hfa] at h; simp at h
    | some b =>
      rw [hfa] at h
      cases hrest : traverseOpt f as with
      | none => rw [hrest] at h; simp at h
      | some bs =>
        rw [hrest] at h
        simp only [Option.some.injEq] at h
        subst h
        cases i with
        | zero => simpa using hfa
        | succ n =>
          simp only [List.getD_cons_succ]
          exact ih hrest n (by simpa using hi)

lemma getD_map_lt {f : α → β} {l : List α} {i : Nat} (hi : i < l.length)
    (d : β) (d' : α) : (l.map f).getD i d = f (l.getD i d') := by
  rw [List.getD_eq_getElem?_getD, List.getD_eq_getElem?_getD,
    List.getElem?_map, List.getElem?_eq_getElem hi]
  simp

lemma traverseOpt_reindex {f : α → Option β} (dA : α) (dB : β)
    {l : List α} {L : List β} (h : traverseOpt f l = some L) :
    ∀ {π : List Nat}, (∀ x ∈ π, x < l.length) →
      traverseOpt f (π.map (fun x => l.getD x dA)) =
        some (π.map (fun x => L.getD x dB)) := by
  intro π
  induction π with
  | nil => intro _; simp [traverseOpt]
  | cons x xs ih =>
    intro hπ
    have hx : x < l.length := hπ x (by simp)
    have hfx := traverseOpt_getD dA dB h x hx
    simp only [List.map_cons, traverseOpt, hfx, ih (fun y hy => hπ y (by simp [hy]))]

lemma cellAt_materialize {nb nt nv i j p : Nat} (hi : i < nb) (hj : j < nt)
    (hp : p < nv) (y : ATensor) :
    cellAt (materialize nb nt nv y) i j p = y i j p := by
  simp [cellAt, materialize, List.getD_eq_getElem?_getD, List.getElem?_map,
    List.getElem?_range, hi, hj, hp]

lemma materialize_getD_row {nb nt nv x : Nat} (hx : x < nb) (y : ATensor) :
    (materialize nb nt nv y).getD x [] =
      (List.range nt).map (fun j => (List.range nv).map (fun p => y x j p)) := by
  simp [materialize, List.getD_eq_getElem?_getD, List.getElem?_map,
    List.getElem?_range, hx]

lemma shape3_materialize (nb nt nv : Nat) (y : ATensor) :
    shape3 (materialize nb nt nv y) nb nt nv := by
  refine ⟨by simp [materialize], ?_⟩
  intro rows hrows
  simp only [materialize, List.mem_map] at hrows
  obtain ⟨i, _, rfl⟩ := hrows
  refine ⟨by simp, ?_⟩
  intro vars hvars
  simp only [List.mem_map] at hvars
  obtain ⟨j, _, rfl⟩ := hvars
  simp

namespace CamelsAus

lemma ausLoop_cons_cases {F : List (String × FlowTable)} {G : List String}
    {cal : List Int} {v : String} {rest : List String} {k : Nat}
    {y0 yfin : ATensor}
    (h : ausLoop F G cal (v :: rest) k y0 = some yfin) :
    ∃ tbl gcols, List.lookup v F = some tbl ∧
      traverseOpt (fun g => List.lookup g tbl.cols) G = some gcols ∧
      ausLoop F G cal rest (k + 1)
        (if v = "streamflow_MLd"
         then divTensor (scatterWrite y0 k cal tbl.dates gcols)
         else scatterWrite y0 k cal tbl.dates gcols) = some yfin := by
  cases hv : List.lookup v F with
  | none => simp [ausLoop, hv] at h
  | some tbl =>
    cases hg : traverseOpt (fun g => List.lookup g tbl.cols) G with
    | none => simp [ausLoop, hv, hg] at h
    | some gcols =>
      simp only [ausLoop, hv, hg] at h
      exact ⟨tbl, gcols, rfl, hg, h⟩

lemma ausLoop_untouched {F : List (String × FlowTable)} {G : List String}
    {cal : List Int} :
    ∀ {cols : List String} {k : Nat} {y0 yfin : ATensor},
      ausLoop F G cal cols k y0 = some yfin →
      ∀ i j p, (p < k ∨ k + cols.length ≤ p) →
        yfin i j p = divPowCell (mldCount cols) (y0 i j p) := by
  intro cols
  induction cols with
  | nil =>
    intro k y0 yfin h i j p _
    rw [ausLoop] at h
    cases h
    rw [mldCount_nil, divPowCell_zero]
  | cons v rest ih =>
    intro k y0 yfin h i j p hp
    obtain ⟨tbl, gcols, _, _, h'⟩ := ausLoop_cons_cases h
    have hpk : p ≠ k := by
      rcases hp with h1 | h1
      · omega
      · simp only [List.length_cons] at h1; omega
    have hp' : p < k + 1 ∨ (k + 1) + rest.length ≤ p := by
      rcases hp with h1 | h1
      · left; omega
      · right; simp only [List.length_cons] at h1; omega
    have hstep := ih h' i j p hp'
    by_cases hmld : v = "streamflow_MLd"
    · rw [if_pos hmld] at hstep
      rw [hstep, divTensor_apply, scatterWrite_ne _ _ _ _ _ _ _ _ hpk,
        divPowCell_divPowCell, mldCount_cons, if_pos hmld, Nat.add_comm]
    · rw [if_neg hmld] at hstep
      rw [hstep, scatterWrite_ne _ _ _ _ _ _ _ _ hpk, mldCount_cons,
        if_neg hmld, Nat.zero_add]

lemma scatterWrite_at (y : ATensor) (k : Nat) (cal dates : List Int)
    (gcols : List (List Cell)) (i j : Nat) :
    scatterWrite y k cal dates gcols i j k =
      scatterVal dates gcols cal i j (y i j k) := by
  simp [scatterWrite, scatterVal]

lemma scatterVal_congr_fb (dates : List Int) (gcols : List (List Cell))
    (cal : List Int) (i j : Nat) {fb fb' : Cell} (hfb : fb = fb') :
    scatterVal dates gcols cal i j fb = scatterVal dates gcols cal i j fb' := by
  rw [hfb]

lemma ausLoop_entry {F : List (String × FlowTable)} {G : List String}
    {cal : List Int} :
    ∀ {cols : List String} {q : Nat} {v : String} {k : Nat} {y0 yfin : ATensor}
      {tbl : FlowTable} {gcols : List (List Cell)},
      ausLoop F G cal cols k y0 = some yfin →
      cols.get? q = some v →
      List.lookup v F = some tbl →
      traverseOpt (fun g => List.lookup g tbl.cols) G = some gcols →
      ∀ i j, yfin i j (k + q) =
        divPowCell (mldCount (cols.drop q))
          (scatterVal tbl.dates gcols cal i j
            (divPowCell (mldCount (cols.take q)) (y0 i j (k + q)))) := by
  intro cols
  induction cols with
  | nil => intro q v k y0 yfin tbl gcols _ hq; simp at hq
  | cons w rest ih =>
    intro q v k y0 yfin tbl gcols h hq hv hg i j
    obtain ⟨tbl0, gcols0, hv0, hg0, h'⟩ := ausLoop_cons_cases h
    cases q with
    | zero =>
      have hw : w = v := by simpa using hq
      subst hw
      rw [hv] at hv0
      cases hv0
      rw [hg] at hg0
      cases hg0
      have huntouched := ausLoop_untouched h' i j k (Or.inl (by omega))
      simp only [Nat.add_zero, List.drop_zero, List.take_zero, mldCount_nil,
        divPowCell_zero]
      by_cases hmld : w = "streamflow_MLd"
      · rw [if_pos hmld] at huntouched
        rw [huntouched, divTensor_apply, scatterWrite_at,
          divPowCell_divPowCell, mldCount_cons, if_pos hmld, Nat.add_comm]
      · rw [if_neg hmld] at huntouched
        rw [huntouched, scatterWrite_at, mldCount_cons, if_neg hmld,
          Nat.zero_add]
    | succ q' =>
      have hq' : rest.get? q' = some v := by simpa using hq
      have hkq : k + (q' + 1) = (k + 1) + q' := by omega
      have hstep := ih h' hq' hv hg i j
      have hne : (k + 1) + q' ≠ k := by omega
      have hy2v : (if w = "streamflow_MLd"
            then divTensor (scatterWrite y0 k cal tbl0.dates gcols0)
            else scatterWrite y0 k cal tbl0.dates gcols0) i j ((k + 1) + q') =
          divPowCell (if w = "streamflow_MLd" then 1 else 0)
            (y0 i j ((k + 1) + q')) := by
        by_cases hmld : w = "streamflow_MLd"
        · rw [if_pos hmld, if_pos hmld, divTensor_apply,
            scatterWrite_ne _ _ _ _ _ _ _ _ hne]
        · rw [if_neg hmld, if_neg hmld, divPowCell_zero,
            scatterWrite_ne _ _ _ _ _ _ _ _ hne]
      rw [hy2v] at hstep
      have htake : mldCount ((w :: rest).take (q' + 1)) =
          mldCount (rest.take q') + (if w = "streamflow_MLd" then 1 else 0) := by
        rw [List.take_succ_cons, mldCount_cons, Nat.add_comm]
      rw [hkq, hstep, List.drop_succ_cons, htake,
        scatterVal_congr_fb _ _ _ _ _ (divPowCell_divPowCell _ _ _)]

end CamelsAus

lemma scatterVal_congr (dates cal : List Int) {gcols gcols' : List (List Cell)}
    {i i' j : Nat} (hcol : gcols.getD i [] = gcols'.getD i' [])
    {fb fb' : Cell} (hfb : fb = fb') :
    scatterVal dates gcols cal i j fb = scatterVal dates gcols' cal i' j fb' := by
  unfold scatterVal
  simp only [hcol, hfb]

namespace CamelsAus

lemma ausLoop_reindex {F : List (String × FlowTable)} {cal : List Int}
    {G : List String} {π : List Nat} (hπ : ∀ x ∈ π, x < G.length) :
    ∀ {cols : List String} {k : Nat} {y0 y0' yfin : ATensor},
      ausLoop F G cal cols k y0 = some yfin →
      (∀ i, i < π.length → ∀ j p, y0' i j p = y0 (π.getD i 0) j p) →
      ∃ yfin',
        ausLoop F (π.map (fun x => G.getD x "")) cal cols k y0' = some yfin' ∧
        ∀ i, i < π.length → ∀ j p, yfin' i j p = yfin (π.getD i 0) j p := by
  intro cols
  induction cols with
  | nil =>
    intro k y0 y0' yfin h hinv
    rw [ausLoop] at h
    cases h
    exact ⟨y0', rfl, hinv⟩
  | cons v rest ih =>
    intro k y0 y0' yfin h hinv
    obtain ⟨tbl, gcols, hv, hg, h'⟩ := ausLoop_cons_cases h
    have hglen : gcols.length = G.length := traverseOpt_length hg
    have hg' := traverseOpt_reindex "" ([] : List Cell) hg hπ
    have hinv1 : ∀ i, i < π.length → ∀ j p,
        scatterWrite y0' k cal tbl.dates (π.map (fun x => gcols.getD x [])) i j p =
          scatterWrite y0 k cal tbl.dates gcols (π.getD i 0) j p := by
      intro i hi j p
      by_cases hp : p = k
      · subst hp
        rw [scatterWrite_at, scatterWrite_at]
        exact scatterVal_congr _ _ (getD_map_lt hi [] 0) (hinv i hi j p)
      · rw [scatterWrite_ne _ _ _ _ _ _ _ _ hp,
          scatterWrite_ne _ _ _ _ _ _ _ _ hp]
        exact hinv i hi j p
    have hinv2 : ∀ i, i < π.length → ∀ j p,
        (if v = "streamflow_MLd"
         then divTensor (scatterWrite y0' k cal tbl.dates
            (π.map (fun x => gcols.getD x [])))
         else scatterWrite y0' k cal tbl.dates
            (π.map (fun x => gcols.getD x []))) i j p =
          (if v = "streamflow_MLd"
           then divTensor (scatterWrite y0 k cal tbl.dates gcols)
           else scatterWrite y0 k cal tbl.dates gcols) (π.getD i 0) j p := by
      intro i hi j p
      by_cases hmld : v = "streamflow_MLd"
      · rw [if_pos hmld, if_pos hmld, divTensor_apply, divTensor_apply,
          hinv1 i hi j p]
      · rw [if_neg hmld, if_neg hmld, hinv1 i hi j p]
    obtain ⟨yfin', hloop', hfin⟩ := ih h' hinv2
    refine ⟨yfin', ?_, hfin⟩
    simp only [ausLoop, hv, hg']
    exact hloop'

end CamelsAus

lemma sortedLevels_perm_dedup (vals : List (Option String)) :
    (sortedLevels vals).Perm (vals.filterMap id).dedup :=
  List.mergeSort_perm _ _

lemma sortedLevels_nodup (vals : List (Option String)) :
    (sortedLevels vals).Nodup :=
  (sortedLevels_perm_dedup vals).nodup_iff.mpr (List.nodup_dedup _)

lemma mem_sortedLevels {a : String} {vals : List (Option String)} :
    a ∈ sortedLevels vals ↔ some a ∈ vals := by
  rw [(sortedLevels_perm_dedup vals).mem_iff, List.mem_dedup, List.mem_filterMap]
  constructor
  · rintro ⟨x, hx, hxa⟩
    simp only [id] at hxa
    rw [hxa] at hx
    exact hx
  · intro h
    exact ⟨some a, h, rfl⟩

lemma sortedLevels_sorted (vals : List (Option String)) :
    (sortedLevels vals).Pairwise (· < ·) := by
  have hle : (sortedLevels vals).Pairwise (fun a b : String => a ≤ b) := by
    have := @List.sorted_mergeSort String (fun a b : String => decide (a ≤ b))
      (fun a b c hab hbc =>
        decide_eq_true (le_trans (of_decide_eq_true hab) (of_decide_eq_true hbc)))
      (fun a b => by
        rcases le_total a b with h | h
        · simp [h]
        · simp [h])
      ((vals.filterMap id).dedup)
    exact this.imp (fun h => of_decide_eq_true h)
  have hne := sortedLevels_nodup vals
  exact (hle.and hne).imp (fun h => lt_of_le_of_ne h.1 h.2)

lemma factorizeCodes_getD {vals : List (Option String)} {r : Nat}
    (hr : r < vals.length) :
    (factorizeCodes vals).getD r (-1) =
      (match vals.getD r none with
       | none => (-1 : ℚ)
       | some s => ((sortedLevels vals).indexOf s : ℚ)) := by
  unfold factorizeCodes
  rw [getD_map_lt hr (-1) none]

namespace CamelsAus

lemma read_attr_all_components {tbl : AttrTable} {gages : List String}
    {out : List (List Cell)} {vl : List String}
    {fd : List (String × List String)}
    (h : read_attr_all tbl gages = some (out, vl, fd)) :
    (∀ c ∈ tbl.cols, c.2.len = gages.length ∨ c.2.len = 1) ∧
    out = (List.range gages.length).map (fun r =>
      tbl.cols.map (fun c =>
        match c.2 with
        | .strCol vals =>
          some ((factorizeCodes vals).getD (broadcastIdx vals.length r) (-1))
        | .numCol vals => vals.getD (broadcastIdx vals.length r) none)) ∧
    vl = tbl.cols.map (fun c => c.1) ∧
    fd = tbl.cols.filterMap (fun c =>
      match c.2 with
      | .strCol vals => some (c.1, sortedLevels vals)
      | .numCol _ => none) := by
  unfold read_attr_all at h
  by_cases hall :
      tbl.cols.all (fun c => c.2.len = gages.length ∨ c.2.len = 1) = true
  · rw [if_pos hall] at h
    injection h with h
    injection h with h1 h
    injection h with h2 h3
    exact ⟨by simpa [List.all_eq_true] using hall, h1.symm, h2.symm, h3.symm⟩
  · rw [if_neg hall] at h
    cases h

lemma read_attr_all_cell {tbl : AttrTable} {gages : List String}
    {out : List (List Cell)} {vl : List String}
    {fd : List (String × List String)}
    (h : read_attr_all tbl gages = some (out, vl, fd))
    {r k : Nat} (hr : r < gages.length) {name : String} {col : AttrCol}
    (hk : tbl.cols.get? k = some (name, col)) :
    (out.getD r []).getD k none =
      (match col with
       | .strCol vals =>
         some ((factorizeCodes vals).getD (broadcastIdx vals.length r) (-1))
       | .numCol vals => vals.getD (broadcastIdx vals.length r) none) := by
  obtain ⟨_, hout, _, _⟩ := read_attr_all_components h
  have hrow : out.getD r [] = tbl.cols.map (fun c =>
      match c.2 with
      | .strCol vals =>
        some ((factorizeCodes vals).getD (broadcastIdx vals.length r) (-1))
      | .numCol vals => vals.getD (broadcastIdx vals.length r) none) := by
    rw [hout, List.getD_eq_getElem?_getD, List.getElem?_map,
      List.getElem?_range hr]
    rfl
  have hklen : k < tbl.cols.length := by
    by_contra hle
    rw [List.get?_eq_none.mpr (by omega)] at hk
    cases hk
  rw [hrow, List.getD_eq_getElem?_getD, List.getElem?_map]
  rw [List.get?_eq_getElem?] at hk
  rw [hk]
  cases col with
  | strCol vals => rfl
  | numCol vals => rfl

lemma read_attr_all_isSome (tbl : AttrTable) (gages : List String) :
    (read_attr_all tbl gages).isSome = true ↔
      tbl.cols.all (fun c => c.2.len = gages.length ∨ c.2.len = 1) = true := by
  unfold read_attr_all
  by_cases hall :
      tbl.cols.all (fun c => c.2.len = gages.length ∨ c.2.len = 1) = true
  · rw [if_pos hall]
    exact ⟨fun _ => hall, fun _ => rfl⟩
  · rw [if_neg hall]
    exact ⟨fun hsome => absurd hsome (by simp), fun hc => absurd hc hall⟩

lemma read_attr_all_length_only (tbl : AttrTable) (gages gages' : List String)
    (hlen : gages.length = gages'.length) :
    read_attr_all tbl gages = read_attr_all tbl gages' := by
  unfold read_attr_all
  rw [hlen]

end CamelsAus

lemma perBasinRead_some_tensor {reader : String → String → Option (List Cell)}
    {convert : Cell → Cell} {G : List String} {s e : Int} {cols : List String}
    {r : ReadResult}
    (h : perBasinRead reader convert G s e (some cols) = some r) :
    ∃ slices,
      traverseOpt (fun v => traverseOpt (fun g => reader g v) G) cols = some slices ∧
      r = ReadResult.tensor
        (materialize G.length (t_range_days s e).length cols.length
          (fun i j p => convert (((slices.getD p []).getD i []).getD j none))) := by
  unfold perBasinRead at h
  rw [Option.map_eq_some'] at h
  obtain ⟨slices, hs, hr⟩ := h
  exact ⟨slices, hs, hr.symm⟩

lemma perBasinRead_cell {reader : String → String → Option (List Cell)}
    {convert : Cell → Cell} {G : List String} {s e : Int} {cols : List String}
    {t : List (List (List Cell))}
    (h : perBasinRead reader convert G s e (some cols) = some (ReadResult.tensor t))
    {i j p : Nat} (hi : i < G.length) (hj : j < (t_range_days s e).length)
    (hp : p < cols.length) {row : List Cell}
    (hread : reader (G.getD i "") (cols.getD p "") = some row) :
    cellAt t i j p = convert (row.getD j none) := by
  obtain ⟨slices, hs, hr⟩ := perBasinRead_some_tensor h
  injection hr with hr
  subst hr
  rw [cellAt_materialize hi hj hp]
  have houter := traverseOpt_getD "" ([] : List (List Cell)) hs p hp
  have hinner := traverseOpt_getD "" ([] : List Cell) houter i hi
  rw [hread] at hinner
  injection hinner with hinner
  rw [← hinner]

/-! ## Claim theorems -/

/-- C1 (counterexample): `CamelsAus.read_attr_all` does NOT place basin rows
in the caller's `basin_ids` order and does NOT fail for an unknown basin id.
With the table's native row order `[b2, b1]` (area 10 resp. 20) and the
request `["b1", "b2"]`, output row 0 holds 10 — the file's first row (b2's
value) — while the spec-demanded lookup (`specAttrRow`) yields 20 for `b1`;
and requesting the absent id `"zz"` raises no `UnknownBasin` error, returning
the same file-order matrix, while `specAttrRow` fails. -/
theorem c1_no_reindex_counterexample :
    CamelsAus.read_attr_all attrTblReversed ["b1", "b2"] =
      some ([[some 10], [some 20]], ["area"], []) ∧
    specAttrRow attrTblReversed "b1" = some [some 20] ∧
    ((some (10 : ℚ) : Cell) ≠ some 20) ∧
    CamelsAus.read_attr_all attrTblReversed ["b1", "zz"] =
      some ([[some 10], [some 20]], ["area"], []) ∧
    specAttrRow attrTblReversed "zz" = none := by
  refine ⟨by with_unfolding_all rfl, by with_unfolding_all rfl, by norm_num,
    by with_unfolding_all rfl, by with_unfolding_all rfl⟩

/-- C2 (code evaluated at the failing input): CAMELS-FR's
`read_fr_gage_flow_forcing` does NOT replace negative values in the target
columns `tsd_q_l`/`tsd_q_mm` by NaN — the masking is commented out in the
source (`# obs[obs < 0] = np.nan  # todo`) — so a source value `-5` on an
in-range day reaches the output as a (converted) negative number instead of
NaN. For contrast, CAMELS-CH masks its target column (`-5 ↦ NaN`) while
passing the same negative through a non-target forcing column, as the claim
describes. -/
theorem c2_fr_negative_passthrough_bug :
    CamelsFr.read_target_cols frNegFiles ["g"] 0 1 (some ["tsd_q_l"]) =
      some (ReadResult.tensor [[[some (-5 * (ft3PerM3 / 1000))]]]) ∧
    ((-5 * (ft3PerM3 / 1000) : ℚ) < 0) ∧
    CamelsCh.read_target_cols chNegFiles chTargetCols ["g"] 0 1
        (some ["discharge_vol(m3/s)"]) = some (ReadResult.tensor [[[none]]]) ∧
    CamelsCh.read_target_cols chNegFiles chTargetCols ["g"] 0 1
        (some ["precipitation(mm/d)"]) =
      some (ReadResult.tensor [[[some (-5 * ft3PerM3)]]]) := by
  refine ⟨by with_unfolding_all rfl, by norm_num [ft3PerM3],
    by with_unfolding_all rfl, by with_unfolding_all rfl⟩

/-- C3 (code evaluated at the failing input): the CAMELS-AUS ML/day
conversion is `y = y / 84.6`, so a source value of `1.0` ML/day becomes
`10/846 ≈ 0.0118203…` m³/s before the final unit-normalization step — not
`0.011574074074074` m³/s (`= 1/86.4`, the factor the source's own comment
documents); the difference exceeds the claimed `1e-12` tolerance by nine
orders of magnitude. -/
theorem c3_mld_conversion_code_bug :
    (CamelsAus.ausPreNorm mldOneFiles ["g"] 0 3 ["streamflow_MLd"]).map
        (fun y => y 0 0 0) = some (some (10 / 846)) ∧
    ¬ ((10 : ℚ) / 846 - 11574074074074 / 10 ^ 15 ≤ 1 / 10 ^ 12) := by
  refine ⟨by with_unfolding_all rfl, by norm_num⟩

/-- C4 (code evaluated at the failing input): the conversion statement
`y = y / 84.6` divides the WHOLE tensor, not only the `streamflow_MLd`
slice. Requesting `["streamflow_mmd", "streamflow_MLd"]` makes the already
written `streamflow_mmd` value `84.6` collapse to `1`, whereas requesting
`["streamflow_mmd"]` alone leaves it at `84.6` — the conversion step changed
another variable's values. -/
theorem c4_conversion_frame_bug :
    (CamelsAus.ausPreNorm twoTargetFiles ["g"] 0 1
        ["streamflow_mmd", "streamflow_MLd"]).map (fun y => y 0 0 0) =
      some (some 1) ∧
    (CamelsAus.ausPreNorm twoTargetFiles ["g"] 0 1
        ["streamflow_mmd"]).map (fun y => y 0 0 0) =
      some (some (846 / 10)) ∧
    ((1 : ℚ) ≠ 846 / 10) := by
  refine ⟨by with_unfolding_all rfl, by with_unfolding_all rfl, by norm_num⟩

/-- C9 (counterexample): with `target_cols = None` the regional
`read_target_cols` returns `np.array([])` — neither an explicit error nor a
fully-shaped `[basin, time, variable]` tensor — for CAMELS-AUS and CAMELS-CH
alike. -/
theorem c9_none_returns_empty_array :
    (CamelsAus.read_target_cols [] ["g"] 0 1 none ≠ none) ∧
    isTensorResult (CamelsAus.read_target_cols [] ["g"] 0 1 none) = false ∧
    (CamelsCh.read_target_cols [] chTargetCols ["g"] 0 1 none ≠ none) ∧
    isTensorResult (CamelsCh.read_target_cols [] chTargetCols ["g"] 0 1 none)
      = false := by
  refine ⟨by simp [CamelsAus.read_target_cols], by with_unfolding_all rfl,
    by simp [CamelsCh.read_target_cols, perBasinRead],
    by with_unfolding_all rfl⟩

lemma materialize_length (nb nt nv : Nat) (y : ATensor) :
    (materialize nb nt nv y).length = nb := by
  simp [materialize]

lemma materialize_getElem {nb nt nv : Nat} (y : ATensor) {i : Nat}
    (h : i < (materialize nb nt nv y).length) :
    (materialize nb nt nv y)[i] =
      (List.range nt).map (fun j => (List.range nv).map (fun p => y i j p)) := by
  simp [materialize]

lemma materialize_reindex {nb nt nv : Nat} {y y' : ATensor} {π : List Nat}
    (hπ : ∀ x ∈ π, x < nb)
    (hrel : ∀ i, i < π.length → ∀ j p, y' i j p = y (π.getD i 0) j p) :
    materialize π.length nt nv y' =
      π.map (fun x => (materialize nb nt nv y).getD x []) := by
  apply List.ext_getElem
  · simp [materialize]
  · intro i h1 h2
    have hiπ : i < π.length := by simpa [materialize] using h1
    have hx : π[i] < nb := hπ π[i] (List.getElem_mem _)
    rw [materialize_getElem y' h1, List.getElem_map,
      materialize_getD_row hx y]
    apply List.map_congr_left
    intro j hj
    apply List.map_congr_left
    intro p hp
    rw [hrel i hiπ j p, List.getD_eq_getElem _ _ hiπ]

/-- C5: whenever a regional `read_target_cols` (CAMELS-AUS, CAMELS-CH,
CAMELS-DK) returns a tensor, that tensor has shape exactly
`(len(basin_list), days in [s, e), len(target_cols))`, whatever the source
files contain. -/
theorem c5_output_shape :
    (∀ (F : List (String × FlowTable)) (G : List String) (s e : Int)
       (cols : List String) (t : List (List (List Cell))),
       CamelsAus.read_target_cols F G s e (some cols) =
         some (ReadResult.tensor t) →
       shape3 t G.length (e - s).toNat cols.length) ∧
    (∀ (files : List (String × FlowTable)) (cfg G : List String) (s e : Int)
       (cols : List String) (t : List (List (List Cell))),
       CamelsCh.read_target_cols files cfg G s e (some cols) =
         some (ReadResult.tensor t) →
       shape3 t G.length (e - s).toNat cols.length) ∧
    (∀ (fo fs : List (String × FlowTable)) (cfg G : List String) (s e : Int)
       (cols : List String) (t : List (List (List Cell))),
       CamelsDk.read_target_cols fo fs cfg G s e (some cols) =
         some (ReadResult.tensor t) →
       shape3 t G.length (e - s).toNat cols.length) := by
  refine ⟨?_, ?_, ?_⟩
  · intro F G s e cols t h
    unfold CamelsAus.read_target_cols at h
    rw [Option.map_eq_some'] at h
    obtain ⟨y, _, hy⟩ := h
    injection hy with hy
    rw [← hy, ← t_range_days_length s e]
    exact shape3_materialize _ _ _ _
  · intro files cfg G s e cols t h
    unfold CamelsCh.read_target_cols at h
    obtain ⟨slices, _, hr⟩ := perBasinRead_some_tensor h
    injection hr with hr
    rw [hr, ← t_range_days_length s e]
    exact shape3_materialize _ _ _ _
  · intro fo fs cfg G s e cols t h
    unfold CamelsDk.read_target_cols at h
    obtain ⟨slices, _, hr⟩ := perBasinRead_some_tensor h
    injection hr with hr
    rw [hr, ← t_range_days_length s e]
    exact shape3_materialize _ _ _ _

/-- C5 witness: a concrete CAMELS-AUS read of one basin, one day, one target
variable has shape `(1, 1, 1)`. -/
theorem c5_output_shape_witness :
    shape3 [[[some (3 * ft3PerM3)]]] 1 ((1 : Int) - 0).toNat 1 :=
  c5_output_shape.1 twoBasinFiles ["g1"] 0 1 ["flow_var"]
    [[[some (3 * ft3PerM3)]]] (by with_unfolding_all rfl)

/-- C6: the CAMELS-AUS output tensor is filled by a scatter over the
date intersection. For any basin position `i`, calendar position `j` and
requested variable position `q` (variable `v`, shared file `tbl`, selected
station columns `gcols`), the returned cell equals: the sentinel-masked
source value of the first source row whose date is `cal[j]` — when that date
occurs in the file — and NaN (`none`) otherwise (`scatterVal` with fallback
`none`), pushed through the code's unit conversions (the `84.6` divisions it
executes from variable `q` on, then m³/s → ft³/s). No sorting or
interpolation takes place, and days absent from the source stay NaN. -/
theorem c6_date_scatter :
    ∀ (F : List (String × FlowTable)) (G : List String) (s e : Int)
      (cols : List String) (t : List (List (List Cell))) (q : Nat) (v : String)
      (tbl : FlowTable) (gcols : List (List Cell)) (i j : Nat),
      CamelsAus.read_target_cols F G s e (some cols) =
        some (ReadResult.tensor t) →
      cols.get? q = some v →
      List.lookup v F = some tbl →
      traverseOpt (fun g => List.lookup g tbl.cols) G = some gcols →
      i < G.length → j < (t_range_days s e).length →
      cellAt t i j q =
        m3ToFt3Cell (divPowCell (mldCount (cols.drop q))
          (scatterVal tbl.dates gcols (t_range_days s e) i j none)) := by
  intro F G s e cols t q v tbl gcols i j h hq hv hg hi hj
  unfold CamelsAus.read_target_cols at h
  rw [Option.map_eq_some'] at h
  obtain ⟨y, hy, ht⟩ := h
  injection ht with ht
  unfold CamelsAus.ausPreNorm at hy
  have hqlen : q < cols.length := by
    by_contra hle
    rw [List.get?_eq_none.mpr (by omega)] at hq
    cases hq
  have hentry := CamelsAus.ausLoop_entry hy hq hv hg i j
  simp only [Nat.zero_add, divPowCell_none] at hentry
  rw [← ht, cellAt_materialize hi hj hqlen]
  show m3ToFt3Cell (y i j q) = _
  rw [hentry]

/-- C6 witness: with one station `"g"` whose file holds value `7` on day 0,
a read over the two-day calendar `[0, 2)` puts the (converted) source value
at calendar position 0 and NaN at position 1, exactly as the scatter formula
states. -/
theorem c6_date_scatter_witness :
    cellAt [[[some (7 * ft3PerM3)], [none]]] 0 0 0 =
      m3ToFt3Cell (divPowCell (mldCount (["flow_var"].drop 0))
        (scatterVal [0] [[some 7]] (t_range_days 0 2) 0 0 none)) ∧
    cellAt [[[some (7 * ft3PerM3)], [none]]] 0 1 0 =
      m3ToFt3Cell (divPowCell (mldCount (["flow_var"].drop 0))
        (scatterVal [0] [[some 7]] (t_range_days 0 2) 0 1 none)) :=
  ⟨c6_date_scatter oneDayFiles ["g"] 0 2 ["flow_var"]
      [[[some (7 * ft3PerM3)], [none]]] 0 "flow_var" ⟨[0], [("g", [some 7])]⟩
      [[some 7]] 0 0 (by with_unfolding_all rfl) rfl rfl
      (by with_unfolding_all rfl) (by decide) (by decide),
   c6_date_scatter oneDayFiles ["g"] 0 2 ["flow_var"]
      [[[some (7 * ft3PerM3)], [none]]] 0 "flow_var" ⟨[0], [("g", [some 7])]⟩
      [[some 7]] 0 1 (by with_unfolding_all rfl) rfl rfl
      (by with_unfolding_all rfl) (by decide) (by decide)⟩

/-- C8: axis 0 of the CAMELS-AUS output follows the caller's basin list
verbatim: reading with a reindexed basin list `[G[π 0], G[π 1], …]` returns
exactly the rows `[t[π 0], t[π 1], …]` of the original output — permuting
(or more generally re-selecting) the input basin list permutes axis 0
identically, with no change to any basin's values. -/
theorem c8_basin_order :
    ∀ (F : List (String × FlowTable)) (G : List String) (s e : Int)
      (cols : List String) (t : List (List (List Cell))) (π : List Nat),
      (∀ x ∈ π, x < G.length) →
      CamelsAus.read_target_cols F G s e (some cols) =
        some (ReadResult.tensor t) →
      CamelsAus.read_target_cols F (π.map (fun x => G.getD x "")) s e
          (some cols) =
        some (ReadResult.tensor (π.map (fun x => t.getD x []))) := by
  intro F G s e cols t π hπ h
  unfold CamelsAus.read_target_cols CamelsAus.ausPreNorm at h ⊢
  rw [Option.map_eq_some'] at h
  obtain ⟨y, hy, ht⟩ := h
  injection ht with ht
  obtain ⟨y', hy', hrel⟩ :=
    CamelsAus.ausLoop_reindex hπ hy (fun _ _ _ _ => rfl)
  dsimp only
  rw [hy', Option.map_some']
  have hmat : materialize (π.map (fun x => G.getD x "")).length
        (t_range_days s e).length cols.length
        (fun i j p => m3ToFt3Cell (y' i j p)) =
      π.map (fun x => t.getD x []) := by
    rw [List.length_map, ← ht]
    exact materialize_reindex hπ
      (fun i hi j p => by rw [hrel i hi j p])
  rw [hmat]

/-- C8 witness: swapping the two requested stations `["g1", "g2"]` to
`["g2", "g1"]` swaps the two basin rows of the output and changes no
values. -/
theorem c8_basin_order_witness :
    CamelsAus.read_target_cols twoBasinFiles
        ([1, 0].map (fun x => ["g1", "g2"].getD x "")) 0 1
        (some ["flow_var"]) =
      some (ReadResult.tensor ([1, 0].map (fun x =>
        ([[[some (3 * ft3PerM3)]], [[some (4 * ft3PerM3)]]]).getD x []))) :=
  c8_basin_order twoBasinFiles ["g1", "g2"] 0 1 ["flow_var"]
    [[[some (3 * ft3PerM3)]], [[some (4 * ft3PerM3)]]] [1, 0]
    (by decide) (by with_unfolding_all rfl)

/-- C1 (amended): `CamelsAus.read_attr_all` performs no per-id row lookup and
raises no `UnknownBasin`: the requested `gages_ids` enter only through their
count, so any two same-length requests — whatever ids they contain — return
identical results, and on success row `r` of the output holds the file's
values selected by position (the file's row `r`; a single-row column is
broadcast by numpy into every output row), never the row looked up for
`gages_ids[r]`. -/
theorem c1_attr_native_order_amended :
    (∀ (tbl : AttrTable) (g g' : List String), g.length = g'.length →
      CamelsAus.read_attr_all tbl g = CamelsAus.read_attr_all tbl g') ∧
    (∀ (tbl : AttrTable) (g : List String) out vl fd,
      CamelsAus.read_attr_all tbl g = some (out, vl, fd) →
      ∀ r, r < g.length → ∀ k name vals,
        tbl.cols.get? k = some (name, AttrCol.numCol vals) →
        (out.getD r []).getD k none =
          vals.getD (broadcastIdx vals.length r) none) := by
  refine ⟨CamelsAus.read_attr_all_length_only, ?_⟩
  intro tbl g out vl fd h r hr k name vals hk
  have hcell := CamelsAus.read_attr_all_cell h hr hk
  rw [hcell]

/-- C1 witness: two same-length requests with entirely different ids give the
same answer, and a one-row table's single value is broadcast into (here) the
third requested output row positionally. -/
theorem c1_attr_native_order_amended_witness :
    CamelsAus.read_attr_all attrTblReversed ["x", "y"] =
      CamelsAus.read_attr_all attrTblReversed ["b1", "b2"] ∧
    (([[some 7], [some 7], [some 7]] :
        List (List Cell)).getD 2 []).getD 0 none =
      ([some 7] : List Cell).getD (broadcastIdx 1 2) none :=
  ⟨c1_attr_native_order_amended.1 attrTblReversed ["x", "y"] ["b1", "b2"] rfl,
   c1_attr_native_order_amended.2 attrTblOneRow ["x", "y", "z"]
     [[some 7], [some 7], [some 7]] ["area"] []
     (by with_unfolding_all rfl) 2 (by decide) 0 "area" [some 7] rfl⟩

/-- C7: in `CamelsAus.read_attr_all` each string-typed attribute column is
factorized against the lexically sorted list of its distinct values: the
sorted level list is strictly increasing and contains exactly the column's
non-missing values, it is recorded under the column name in the
factorization dictionary, each output cell holds the code of the source row
numpy's assignment selects for it (the same row, or the single file row when
the column broadcasts), each present value's code is its index in the level
list, the spec scenario `["A","B","A","C"] ↦ codes [0,1,0,2],
levels ["A","B","C"]` evaluates as stated, and repeating a call yields an
identical result. -/
theorem c7_factorization :
    ((∀ vals, (sortedLevels vals).Pairwise (· < ·)) ∧
     (∀ (a : String) vals, a ∈ sortedLevels vals ↔ some a ∈ vals)) ∧
    (∀ (tbl : AttrTable) (g : List String) out vl fd (k : Nat) (name : String)
       (vals : List (Option String)),
      CamelsAus.read_attr_all tbl g = some (out, vl, fd) →
      tbl.cols.get? k = some (name, AttrCol.strCol vals) →
      (name, sortedLevels vals) ∈ fd ∧
      ∀ r, r < g.length →
        (out.getD r []).getD k none =
          some ((factorizeCodes vals).getD (broadcastIdx vals.length r) (-1)) ∧
        ∀ s, vals.getD r none = some s →
          (factorizeCodes vals).getD r (-1) =
            ((sortedLevels vals).indexOf s : ℚ) ∧
          (sortedLevels vals).indexOf s < (sortedLevels vals).length ∧
          (sortedLevels vals).getD ((sortedLevels vals).indexOf s) "" = s) ∧
    (factorizeCodes [some "A", some "B", some "A", some "C"] =
        [0, 1, 0, 2] ∧
     sortedLevels [some "A", some "B", some "A", some "C"] =
        ["A", "B", "C"]) ∧
    (∀ (tbl : AttrTable) (g : List String),
      CamelsAus.read_attr_all tbl g = CamelsAus.read_attr_all tbl g) := by
  refine ⟨⟨sortedLevels_sorted, fun a vals => mem_sortedLevels⟩, ?_,
    ⟨by with_unfolding_all rfl, by with_unfolding_all rfl⟩,
    fun tbl g => rfl⟩
  intro tbl g out vl fd k name vals h hk
  obtain ⟨_, _, _, hfd⟩ := CamelsAus.read_attr_all_components h
  have hmem : (name, AttrCol.strCol vals) ∈ tbl.cols := List.get?_mem hk
  constructor
  · rw [hfd]
    exact List.mem_filterMap.mpr ⟨(name, AttrCol.strCol vals), hmem, rfl⟩
  · intro r hr
    have hcell := CamelsAus.read_attr_all_cell h hr hk
    refine ⟨hcell, ?_⟩
    intro s hs
    have hrlen : r < vals.length := by
      by_contra hle
      rw [List.getD_eq_default _ _ (by omega)] at hs
      cases hs
    have hcode := factorizeCodes_getD hrlen
    rw [hs] at hcode
    dsimp only at hcode
    have hsmem : s ∈ sortedLevels vals := by
      apply mem_sortedLevels.mpr
      have hvm : vals.getD r none ∈ vals := by
        rw [List.getD_eq_getElem _ _ hrlen]
        exact List.getElem_mem _
      rw [hs] at hvm
      exact hvm
    have hlt : (sortedLevels vals).indexOf s < (sortedLevels vals).length :=
      List.indexOf_lt_length.mpr hsmem
    refine ⟨hcode, hlt, ?_⟩
    rw [List.getD_eq_getElem _ _ hlt]
    exact List.getElem_indexOf hlt

/-- C7 witness: the scenario table (`b1..b4`, column `["A","B","A","C"]`)
records `("cls", ["A","B","C"])` in the factorization dictionary and writes
basin `b2`'s code into the output matrix. -/
theorem c7_factorization_witness :
    ("cls", sortedLevels [some "A", some "B", some "A", some "C"]) ∈
      [("cls", ["A", "B", "C"])] ∧
    (([[some 0], [some 1], [some 0], [some 2]] :
        List (List Cell)).getD 1 []).getD 0 none =
      some ((factorizeCodes
        [some "A", some "B", some "A", some "C"]).getD 1 (-1)) := by
  have h := c7_factorization.2.1 attrTblABAC ["b1", "b2", "b3", "b4"]
    [[some 0], [some 1], [some 0], [some 2]] ["cls"]
    [("cls", ["A", "B", "C"])] 0 "cls"
    [some "A", some "B", some "A", some "C"]
    (by with_unfolding_all rfl) rfl
  exact ⟨h.1, (h.2 1 (by decide)).1⟩

/-- C10: when the source cell that numpy writes into an output row of a
string-typed attribute column is missing (NaN), that row's output cell is
the code `-1.0`, which is not the cast of any natural-number index into the
recorded level list; the level list recorded under the column name contains
only the present values (cf. `c7`), so the code→label mapping holds only for
basins whose categorical value is present. -/
theorem c10_missing_categorical_minus_one :
    ∀ (tbl : AttrTable) (g : List String) out vl fd (k : Nat) (name : String)
      (vals : List (Option String)) (r : Nat),
      CamelsAus.read_attr_all tbl g = some (out, vl, fd) →
      tbl.cols.get? k = some (name, AttrCol.strCol vals) →
      r < g.length →
      vals.getD (broadcastIdx vals.length r) none = none →
      (out.getD r []).getD k none = some (-1) ∧
      (∀ idx : Nat, ((idx : ℚ) ≠ (-1 : ℚ))) ∧
      (name, sortedLevels vals) ∈ fd := by
  intro tbl g out vl fd k name vals r h hk hr hmiss
  obtain ⟨hall, _, _, hfd⟩ := CamelsAus.read_attr_all_components h
  have hmem : (name, AttrCol.strCol vals) ∈ tbl.cols := List.get?_mem hk
  have hlen : vals.length = g.length ∨ vals.length = 1 := hall _ hmem
  have hidx : broadcastIdx vals.length r < vals.length := by
    unfold broadcastIdx
    by_cases h1 : vals.length = 1
    · rw [if_pos h1, h1]
      omega
    · rw [if_neg h1]
      rcases hlen with h2 | h2
      · omega
      · exact absurd h2 h1
  have hcell := CamelsAus.read_attr_all_cell h hr hk
  have hcode := factorizeCodes_getD hidx
  rw [hmiss] at hcode
  dsimp only at hcode
  refine ⟨?_, ?_, ?_⟩
  · rw [hcell]
    dsimp only
    rw [hcode]
  · intro idx hidx
    have h0 : (0 : ℚ) ≤ (idx : ℚ) := Nat.cast_nonneg idx
    rw [hidx] at h0
    norm_num at h0
  · rw [hfd]
    exact List.mem_filterMap.mpr ⟨(name, AttrCol.strCol vals), hmem, rfl⟩

/-- C10 witness: in the table with column `["B", NaN, "A"]`, row 1's output
cell is `-1.0` and the recorded level list is `["A", "B"]`. -/
theorem c10_missing_categorical_minus_one_witness :
    (([[some 1], [some (-1)], [some 0]] :
        List (List Cell)).getD 1 []).getD 0 none = some (-1) ∧
    ("geo", sortedLevels [some "B", none, some "A"]) ∈
      [("geo", ["A", "B"])] :=
  ⟨(c10_missing_categorical_minus_one attrTblMissing ["b1", "b2", "b3"]
      [[some 1], [some (-1)], [some 0]] ["geo"] [("geo", ["A", "B"])]
      0 "geo" [some "B", none, some "A"] 1
      (by with_unfolding_all rfl) rfl (by decide) rfl).1,
   (c10_missing_categorical_minus_one attrTblMissing ["b1", "b2", "b3"]
      [[some 1], [some (-1)], [some 0]] ["geo"] [("geo", ["A", "B"])]
      0 "geo" [some "B", none, some "A"] 1
      (by with_unfolding_all rfl) rfl (by decide) rfl).2.2⟩

/-- C9 (amended): for a non-`None` target list the caller receives either an
explicit error or a fully-shaped `[basin, time, variable]` tensor — never a
truncated or reshaped array; the sole exception is `target_cols = None`,
which returns the empty 1-axis array `np.array([])` (for CAMELS-AUS and
CAMELS-CH alike). -/
theorem c9_result_amended :
    (∀ (F : List (String × FlowTable)) (G : List String) (s e : Int),
      CamelsAus.read_target_cols F G s e none = some ReadResult.empty) ∧
    (∀ (F : List (String × FlowTable)) (G : List String) (s e : Int)
       (cols : List String) (r : ReadResult),
      CamelsAus.read_target_cols F G s e (some cols) = some r →
      ∃ t, r = ReadResult.tensor t ∧
        shape3 t G.length (e - s).toNat cols.length) ∧
    (∀ (files : List (String × FlowTable)) (cfg G : List String) (s e : Int),
      CamelsCh.read_target_cols files cfg G s e none =
        some ReadResult.empty) ∧
    (∀ (files : List (String × FlowTable)) (cfg G : List String) (s e : Int)
       (cols : List String) (r : ReadResult),
      CamelsCh.read_target_cols files cfg G s e (some cols) = some r →
      ∃ t, r = ReadResult.tensor t ∧
        shape3 t G.length (e - s).toNat cols.length) := by
  refine ⟨fun F G s e => rfl, ?_, fun files cfg G s e => rfl, ?_⟩
  · intro F G s e cols r h
    unfold CamelsAus.read_target_cols at h
    rw [Option.map_eq_some'] at h
    obtain ⟨y, _, hy⟩ := h
    refine ⟨_, hy.symm, ?_⟩
    rw [← t_range_days_length s e]
    exact shape3_materialize _ _ _ _
  · intro files cfg G s e cols r h
    unfold CamelsCh.read_target_cols at h
    obtain ⟨slices, _, hr⟩ := perBasinRead_some_tensor h
    refine ⟨_, hr, ?_⟩
    rw [← t_range_days_length s e]
    exact shape3_materialize _ _ _ _

/-- C9 witness: the `None` case returns the empty array, and a concrete
non-`None` CAMELS-AUS read is fully shaped. -/
theorem c9_result_amended_witness :
    CamelsAus.read_target_cols mldOneFiles ["g"] 0 1 none =
      some ReadResult.empty ∧
    shape3 [[[some (10 / 846 * ft3PerM3)]]] 1 ((1 : Int) - 0).toNat 1 := by
  refine ⟨c9_result_amended.1 mldOneFiles ["g"] 0 1, ?_⟩
  obtain ⟨t, ht, hs⟩ := c9_result_amended.2.1 mldOneFiles ["g"] 0 1
    ["streamflow_MLd"] (ReadResult.tensor [[[some (10 / 846 * ft3PerM3)]]])
    (by with_unfolding_all rfl)
  injection ht with ht
  rw [ht]
  exact hs
